import Mathlib

/-!
Verification of the `yorutsuke-v2` Tauri backend (`src/app/src-tauri/src/lib.rs`).

The development shallowly embeds the Rust source:

* the dimension computation of `compress_image` (lib.rs lines 56–70) uses `f32`
  arithmetic; we model IEEE-754 binary32 round-to-nearest-even exactly, with
  exact values carried as unreduced fractions of naturals `(num, den)` so that
  the kernel can evaluate everything (all values arising from `u32` dimensions
  lie in the normal range of `f32`, far from overflow and subnormals);
* `md5::compute` together with `format!("{:x}", …)` is embedded as a full
  executable MD5 over byte lists producing lowercase hex characters;
* the filesystem is a partial map from paths to nodes, threaded explicitly;
  the external `image` crate operations (decode, `resize_exact`, `grayscale` +
  `to_rgb8`, JPEG encoding) are parameters of the embedding, constrained only
  by their documented contracts where a claim needs them.
-/

/-! ### Exact binary32 arithmetic on nonnegative fractions -/

/-- Round `num / den` to the nearest natural, ties to even
(the IEEE-754 default rounding applied to an exact scaled significand). -/
def rneN (num den : ℕ) : ℕ :=
  let q := num / den
  let r := num % den
  if 2 * r < den then q
  else if den < 2 * r then q + 1
  else if q % 2 = 0 then q else q + 1

/-- Fuel-driven binary logarithm on `ℕ` (structurally recursive so that the
kernel can evaluate it inside `decide`). -/
def log2go : ℕ → ℕ → ℕ
  | 0, _ => 0
  | fuel + 1, n => if n < 2 then 0 else log2go fuel (n / 2) + 1

/-- `nlog2 n = ⌊log₂ n⌋` for `n ≥ 1`. -/
def nlog2 (n : ℕ) : ℕ := log2go n n

/-- Exponent `e` with `2 ^ e ≤ num / den < 2 ^ (e + 1)`, for `num, den ≥ 1`. -/
def fexp (num den : ℕ) : ℤ :=
  if den ≤ num then (nlog2 (num / den) : ℤ)
  else if den = num * 2 ^ nlog2 (den / num) then -(nlog2 (den / num) : ℤ)
  else -(nlog2 (den / num) : ℤ) - 1

/-- IEEE-754 binary32 rounding (round to nearest, ties to even) of the exact
nonnegative rational `num / den`, for values in the normal range: the
significand is scaled into `[2²³, 2²⁴)` and rounded to an integer.  The result
is again an exact fraction `(num, den)` with nonzero denominator. -/
def f32pair (num den : ℕ) : ℕ × ℕ :=
  if num = 0 ∨ den = 0 then (0, 1)
  else if 0 ≤ (23 : ℤ) - fexp num den then
    (rneN (num * 2 ^ ((23 : ℤ) - fexp num den).toNat) den,
      2 ^ ((23 : ℤ) - fexp num den).toNat)
  else
    (rneN num (den * 2 ^ (fexp num den - 23).toNat) * 2 ^ (fexp num den - 23).toNat, 1)

/-- `u32 as f32` (Rust semantics: round to nearest, ties to even). -/
def u32f (x : ℕ) : ℕ × ℕ := f32pair x 1

/-- `f32` division of exactly represented operands. -/
def f32div (a b : ℕ × ℕ) : ℕ × ℕ := f32pair (a.1 * b.2) (a.2 * b.1)

/-- `f32` multiplication of exactly represented operands. -/
def f32mul (a b : ℕ × ℕ) : ℕ × ℕ := f32pair (a.1 * b.1) (a.2 * b.2)

/-- `f32 as u32` (Rust semantics: truncate toward zero; the saturating cases
never arise for the values produced by the dimension computation). -/
def castU32 (a : ℕ × ℕ) : ℕ := a.1 / a.2

/-- `const MAX_SIZE: u32 = 1536` (lib.rs line 57). -/
def MAX_SIZE : ℕ := 1536

/-- The scaled side computed by `compress_image` when resizing is needed:
`(side as f32 * (MAX_SIZE as f32 / long as f32)) as u32` where `long` is the
longer original side. -/
def scaledShort (side long : ℕ) : ℕ :=
  castU32 (f32mul (u32f side) (f32div (u32f MAX_SIZE) (u32f long)))

/-- The dimension computation of `compress_image` (lib.rs lines 58–70), with
the `ratio` binding inlined into `scaledShort`:
```
let (new_width, new_height) = if orig_width > orig_height {
    if orig_width > MAX_SIZE {
        let ratio = MAX_SIZE as f32 / orig_width as f32;
        (MAX_SIZE, (orig_height as f32 * ratio) as u32)
    } else { (orig_width, orig_height) }
} else if orig_height > MAX_SIZE {
    let ratio = MAX_SIZE as f32 / orig_height as f32;
    ((orig_width as f32 * ratio) as u32, MAX_SIZE)
} else { (orig_width, orig_height) };
```
-/
def newDims (origWidth origHeight : ℕ) : ℕ × ℕ :=
  if origWidth > origHeight then
    if origWidth > MAX_SIZE then (MAX_SIZE, scaledShort origHeight origWidth)
    else (origWidth, origHeight)
  else if origHeight > MAX_SIZE then (scaledShort origWidth origHeight, MAX_SIZE)
  else (origWidth, origHeight)

example : newDims 3000 2000 = (1536, 1024) := by decide
example : newDims 800 600 = (800, 600) := by decide
example : newDims 2055 2055 = (1535, 1536) := by decide
example : newDims 1692 141 = (1536, 127) := by decide

/-! ### Correctness bounds for the binary32 model -/

/-- Rational value of a fraction pair. -/
def qv (a : ℕ × ℕ) : ℚ := (a.1 : ℚ) / a.2

lemma log2go_spec : ∀ fuel n, 1 ≤ n → n ≤ fuel →
    2 ^ log2go fuel n ≤ n ∧ n < 2 ^ (log2go fuel n + 1) := by
  intro fuel
  induction fuel with
  | zero => intro n h1 h2; exact absurd (h1.trans h2) (by norm_num)
  | succ f ih =>
    intro n h1 h2
    rw [log2go]
    by_cases h : n < 2
    · rw [if_pos h]
      interval_cases n
      · exact ⟨le_rfl, by norm_num⟩
    · rw [if_neg h]
      have h2' : n / 2 ≤ f := by omega
      have h1' : 1 ≤ n / 2 := by omega
      obtain ⟨ha, hb⟩ := ih (n / 2) h1' h2'
      constructor
      · rw [pow_succ]; omega
      · rw [pow_succ] at hb
        rw [pow_succ, pow_succ]; omega

lemma nlog2_spec (n : ℕ) (h : 1 ≤ n) :
    2 ^ nlog2 n ≤ n ∧ n < 2 ^ (nlog2 n + 1) :=
  log2go_spec n n h le_rfl

lemma rneN_err (num den : ℕ) (hd : den ≠ 0) :
    |(rneN num den : ℚ) - (num : ℚ) / den| ≤ 1 / 2 := by
  have hd0 : (0 : ℚ) < den := by exact_mod_cast Nat.pos_of_ne_zero hd
  have hcast : ((den : ℚ)) * ((num / den : ℕ) : ℚ) + ((num % den : ℕ) : ℚ) = num := by
    exact_mod_cast Nat.div_add_mod num den
  have heq : (num : ℚ) / den = ((num / den : ℕ) : ℚ) + ((num % den : ℕ) : ℚ) / den := by
    field_simp
    linarith [hcast]
  have hR0 : (0 : ℚ) ≤ ((num % den : ℕ) : ℚ) := by positivity
  have hRd : ((num % den : ℕ) : ℚ) < den := by
    exact_mod_cast Nat.mod_lt num (Nat.pos_of_ne_zero hd)
  rw [rneN]
  split_ifs with h1 h2 h3
  · have hx : ((num % den : ℕ) : ℚ) / den < 1 / 2 := by
      rw [div_lt_iff₀ hd0]
      have : ((2 * (num % den) : ℕ) : ℚ) < den := by exact_mod_cast h1
      push_cast at this; linarith
    have hy : (0 : ℚ) ≤ ((num % den : ℕ) : ℚ) / den := by positivity
    rw [heq, abs_le]; constructor <;> linarith
  · have hx : 1 / 2 < ((num % den : ℕ) : ℚ) / den := by
      rw [lt_div_iff₀ hd0]
      have : (den : ℚ) < ((2 * (num % den) : ℕ) : ℚ) := by exact_mod_cast h2
      push_cast at this; linarith
    have hy : ((num % den : ℕ) : ℚ) / den < 1 := by
      rw [div_lt_one hd0]; exact hRd
    rw [heq, abs_le]; push_cast; constructor <;> linarith
  · have hx : ((num % den : ℕ) : ℚ) / den = 1 / 2 := by
      rw [div_eq_iff (ne_of_gt hd0)]
      have h4 : 2 * (num % den) = den := by omega
      have : ((2 * (num % den) : ℕ) : ℚ) = den := by exact_mod_cast h4
      push_cast at this; linarith
    rw [heq, abs_le]; constructor <;> linarith
  · have hx : ((num % den : ℕ) : ℚ) / den = 1 / 2 := by
      rw [div_eq_iff (ne_of_gt hd0)]
      have h4 : 2 * (num % den) = den := by omega
      have : ((2 * (num % den) : ℕ) : ℚ) = den := by exact_mod_cast h4
      push_cast at this; linarith
    rw [heq, abs_le]; push_cast; constructor <;> linarith

lemma fexp_spec (num den : ℕ) (hn : num ≠ 0) (hd : den ≠ 0) :
    (2 : ℚ) ^ fexp num den ≤ (num : ℚ) / den ∧
      (num : ℚ) / den < 2 ^ (fexp num den + 1) := by
  have hd0 : (0 : ℚ) < den := by exact_mod_cast Nat.pos_of_ne_zero hd
  have hn0 : (0 : ℚ) < num := by exact_mod_cast Nat.pos_of_ne_zero hn
  rw [fexp]
  split_ifs with hle htie
  · have h1 : 1 ≤ num / den := (Nat.one_le_div_iff (Nat.pos_of_ne_zero hd)).mpr hle
    obtain ⟨ha, hb⟩ := nlog2_spec _ h1
    constructor
    · rw [zpow_natCast]
      have hc1 : ((2 ^ nlog2 (num / den) : ℕ) : ℚ) ≤ ((num / den : ℕ) : ℚ) := by
        exact_mod_cast ha
      have hc2 : ((num / den : ℕ) : ℚ) ≤ (num : ℚ) / den := Nat.cast_div_le
      push_cast at hc1
      linarith
    · have hub : (num : ℚ) / den < ((num / den : ℕ) : ℚ) + 1 := by
        have := Nat.lt_floor_add_one ((num : ℚ) / den)
        rwa [Nat.floor_div_nat, Nat.floor_natCast] at this
      have hc : ((num / den : ℕ) : ℚ) + 1 ≤ ((2 ^ (nlog2 (num / den) + 1) : ℕ) : ℚ) := by
        exact_mod_cast hb
      rw [show ((nlog2 (num / den) : ℤ) + 1) = ((nlog2 (num / den) + 1 : ℕ) : ℤ) by
        push_cast; ring, zpow_natCast]
      push_cast at hc
      linarith
  · have hnd : num < den := not_le.mp hle
    set m := nlog2 (den / num) with hm
    have hq : (num : ℚ) / den = (2 : ℚ) ^ (-(m : ℤ)) := by
      have hden : (den : ℚ) = (num : ℚ) * (2 : ℚ) ^ m := by
        rw [htie]; push_cast; ring
      rw [hden, zpow_neg, zpow_natCast]
      rw [eq_comm, inv_eq_one_div, div_eq_div_iff (by positivity) (by positivity)]
      ring
    constructor
    · exact le_of_eq hq.symm
    · rw [hq]
      have h0 : (0 : ℚ) < 2 ^ (-(m : ℤ)) := by positivity
      rw [zpow_add_one₀ (by norm_num : (2 : ℚ) ≠ 0)]
      linarith
  · have hnd : num < den := not_le.mp hle
    have h1 : 1 ≤ den / num := (Nat.one_le_div_iff (Nat.pos_of_ne_zero hn)).mpr hnd.le
    obtain ⟨ha, hb⟩ := nlog2_spec _ h1
    set m := nlog2 (den / num) with hm
    have hmulle : 2 ^ m * num ≤ den := (Nat.le_div_iff_mul_le (Nat.pos_of_ne_zero hn)).mp ha
    have hmullt : 2 ^ m * num < den := by
      rcases lt_or_eq_of_le hmulle with h | h
      · exact h
      · exact absurd (h.symm.trans (mul_comm _ _)) htie
    have hub : den < 2 ^ (m + 1) * num :=
      (Nat.div_lt_iff_lt_mul (Nat.pos_of_ne_zero hn)).mp hb
    have hq1 : ((2 ^ m : ℕ) : ℚ) * num < den := by exact_mod_cast hmullt
    have hq2 : (den : ℚ) < ((2 ^ (m + 1) : ℕ) : ℚ) * num := by exact_mod_cast hub
    push_cast at hq1 hq2
    constructor
    · rw [show -(m : ℤ) - 1 = -((m : ℤ) + 1) by ring, zpow_neg, inv_eq_one_div]
      rw [show ((m : ℤ) + 1) = ((m + 1 : ℕ) : ℤ) by push_cast; ring, zpow_natCast]
      rw [div_le_div_iff₀ (by positivity) hd0]
      linarith
    · rw [show -(m : ℤ) - 1 + 1 = -(m : ℤ) by ring, zpow_neg, inv_eq_one_div,
        zpow_natCast]
      rw [div_lt_div_iff₀ hd0 (by positivity)]
      linarith

lemma f32pair_den_ne (num den : ℕ) : (f32pair num den).2 ≠ 0 := by
  rw [f32pair]
  split_ifs with h1 h2
  · norm_num
  · exact pow_ne_zero _ (by norm_num)
  · norm_num

lemma f32pair_err (num den : ℕ) (hn : num ≠ 0) (hd : den ≠ 0) :
    |qv (f32pair num den) - (num : ℚ) / den| ≤ ((num : ℚ) / den) / 2 ^ 24 := by
  obtain ⟨hlow, _⟩ := fexp_spec num den hn hd
  have hd0 : (0 : ℚ) < den := by exact_mod_cast Nat.pos_of_ne_zero hd
  have hn0 : (0 : ℚ) < num := by exact_mod_cast Nat.pos_of_ne_zero hn
  rw [f32pair, if_neg (by simp [hn, hd])]
  split_ifs with h23
  · set k := ((23 : ℤ) - fexp num den).toNat with hk
    have hkz : (k : ℤ) = 23 - fexp num den := Int.toNat_of_nonneg h23
    have hpk : (0 : ℚ) < 2 ^ k := by positivity
    have h1 := rneN_err (num * 2 ^ k) den hd
    have hsn : ((num * 2 ^ k : ℕ) : ℚ) / den = ((num : ℚ) / den) * 2 ^ k := by
      push_cast; ring
    rw [hsn] at h1
    have hpow : (2 : ℚ) ^ (23 : ℕ) ≤ ((num : ℚ) / den) * 2 ^ k := by
      have h2 : (2 : ℚ) ^ fexp num den * (2 : ℚ) ^ (k : ℤ) = 2 ^ (23 : ℤ) := by
        rw [← zpow_add₀ (by norm_num : (2 : ℚ) ≠ 0)]
        congr 1
        omega
      have h3 : (2 : ℚ) ^ (k : ℤ) = 2 ^ k := zpow_natCast 2 k
      have h4 : (0 : ℚ) < (2 : ℚ) ^ (k : ℤ) := by positivity
      calc (2 : ℚ) ^ (23 : ℕ) = 2 ^ (23 : ℤ) := by norm_num
        _ = 2 ^ fexp num den * (2 : ℚ) ^ (k : ℤ) := h2.symm
        _ ≤ ((num : ℚ) / den) * (2 : ℚ) ^ (k : ℤ) :=
            mul_le_mul_of_nonneg_right hlow h4.le
        _ = ((num : ℚ) / den) * 2 ^ k := by rw [h3]
    simp only [qv]
    push_cast
    have key : (rneN (num * 2 ^ k) den : ℚ) / 2 ^ k - (num : ℚ) / den =
        ((rneN (num * 2 ^ k) den : ℚ) - ((num : ℚ) / den) * 2 ^ k) / 2 ^ k := by
      field_simp
      ring
    rw [key, abs_div, abs_of_pos hpk, div_le_div_iff₀ hpk (by positivity)]
    nlinarith [h1, hpow, abs_nonneg ((rneN (num * 2 ^ k) den : ℚ) -
      ((num : ℚ) / den) * 2 ^ k)]
  · set k := (fexp num den - 23).toNat with hk
    have hkz : (k : ℤ) = fexp num den - 23 := Int.toNat_of_nonneg (by omega)
    have hpk : (0 : ℚ) < 2 ^ k := by positivity
    have h1 := rneN_err num (den * 2 ^ k) (by positivity)
    have hsn : (num : ℚ) / ((den * 2 ^ k : ℕ) : ℚ) = ((num : ℚ) / den) / 2 ^ k := by
      push_cast; rw [div_div]
    rw [hsn] at h1
    have hpow : (2 : ℚ) ^ k * 2 ^ (23 : ℕ) ≤ (num : ℚ) / den := by
      have h2 : (2 : ℚ) ^ fexp num den = (2 : ℚ) ^ (k : ℤ) * 2 ^ (23 : ℤ) := by
        rw [← zpow_add₀ (by norm_num : (2 : ℚ) ≠ 0)]
        congr 1
        omega
      have h3 : (2 : ℚ) ^ (k : ℤ) = 2 ^ k := zpow_natCast 2 k
      calc (2 : ℚ) ^ k * 2 ^ (23 : ℕ) = (2 : ℚ) ^ (k : ℤ) * 2 ^ (23 : ℤ) := by
            rw [h3]; norm_num
        _ = 2 ^ fexp num den := h2.symm
        _ ≤ (num : ℚ) / den := hlow
    simp only [qv]
    push_cast
    have key : (rneN num (den * 2 ^ k) : ℚ) * 2 ^ k / 1 - (num : ℚ) / den =
        ((rneN num (den * 2 ^ k) : ℚ) - ((num : ℚ) / den) / 2 ^ k) * 2 ^ k := by
      field_simp
      ring
    rw [key, abs_mul, abs_of_pos hpk,
      le_div_iff₀ (by positivity : (0 : ℚ) < 2 ^ 24)]
    nlinarith [hpow, mul_le_mul_of_nonneg_right h1 hpk.le]

lemma f32pair_bounds (num den : ℕ) (hn : num ≠ 0) (hd : den ≠ 0) :
    ((num : ℚ) / den) * (16777215 / 16777216) ≤ qv (f32pair num den) ∧
      qv (f32pair num den) ≤ ((num : ℚ) / den) * (16777217 / 16777216) := by
  have herr := f32pair_err num den hn hd
  rw [abs_le] at herr
  have hd0 : (0 : ℚ) < den := by exact_mod_cast Nat.pos_of_ne_zero hd
  have hn0 : (0 : ℚ) < num := by exact_mod_cast Nat.pos_of_ne_zero hn
  have hq0 : (0 : ℚ) < (num : ℚ) / den := div_pos hn0 hd0
  constructor <;> nlinarith [herr.1, herr.2]

lemma f32pair_pos (num den : ℕ) (hn : num ≠ 0) (hd : den ≠ 0) :
    0 < qv (f32pair num den) := by
  have hb := (f32pair_bounds num den hn hd).1
  have hd0 : (0 : ℚ) < den := by exact_mod_cast Nat.pos_of_ne_zero hd
  have hn0 : (0 : ℚ) < num := by exact_mod_cast Nat.pos_of_ne_zero hn
  nlinarith [div_pos hn0 hd0]

lemma f32pair_num_ne (num den : ℕ) (hn : num ≠ 0) (hd : den ≠ 0) :
    (f32pair num den).1 ≠ 0 := by
  intro h
  have := f32pair_pos num den hn hd
  rw [qv, h] at this
  norm_num at this

lemma qv_nonneg (a : ℕ × ℕ) : 0 ≤ qv a := by
  rw [qv]; positivity

lemma castU32_eq_floor (a : ℕ × ℕ) : castU32 a = ⌊qv a⌋₊ := by
  rw [castU32, qv, Nat.floor_div_nat, Nat.floor_natCast]

lemma qv_u32f_MAX : qv (u32f MAX_SIZE) = 1536 := by
  have h : u32f MAX_SIZE = (12582912, 8192) := by decide
  rw [h, qv]
  norm_num

lemma u32f_bounds (x : ℕ) (hx : x ≠ 0) :
    (x : ℚ) * (16777215 / 16777216) ≤ qv (u32f x) ∧
      qv (u32f x) ≤ (x : ℚ) * (16777217 / 16777216) := by
  have h := f32pair_bounds x 1 hx one_ne_zero
  rw [u32f]
  simpa using h

lemma f32div_bounds (a b : ℕ × ℕ) (ha1 : a.1 ≠ 0) (ha2 : a.2 ≠ 0)
    (hb1 : b.1 ≠ 0) (hb2 : b.2 ≠ 0) :
    (qv a / qv b) * (16777215 / 16777216) ≤ qv (f32div a b) ∧
      qv (f32div a b) ≤ (qv a / qv b) * (16777217 / 16777216) := by
  have h := f32pair_bounds (a.1 * b.2) (a.2 * b.1) (mul_ne_zero ha1 hb2)
    (mul_ne_zero ha2 hb1)
  have heq : ((a.1 * b.2 : ℕ) : ℚ) / ((a.2 * b.1 : ℕ) : ℚ) = qv a / qv b := by
    rw [qv, qv]
    have h2 : ((a.2 : ℚ)) ≠ 0 := Nat.cast_ne_zero.mpr ha2
    have h3 : ((b.1 : ℚ)) ≠ 0 := Nat.cast_ne_zero.mpr hb1
    have h4 : ((b.2 : ℚ)) ≠ 0 := Nat.cast_ne_zero.mpr hb2
    push_cast
    field_simp
  rw [heq] at h
  unfold f32div
  exact h

lemma f32mul_bounds (a b : ℕ × ℕ) (ha1 : a.1 ≠ 0) (ha2 : a.2 ≠ 0)
    (hb1 : b.1 ≠ 0) (hb2 : b.2 ≠ 0) :
    (qv a * qv b) * (16777215 / 16777216) ≤ qv (f32mul a b) ∧
      qv (f32mul a b) ≤ (qv a * qv b) * (16777217 / 16777216) := by
  have h := f32pair_bounds (a.1 * b.1) (a.2 * b.2) (mul_ne_zero ha1 hb1)
    (mul_ne_zero ha2 hb2)
  have heq : ((a.1 * b.1 : ℕ) : ℚ) / ((a.2 * b.2 : ℕ) : ℚ) = qv a * qv b := by
    rw [qv, qv]
    push_cast
    rw [div_mul_div_comm]
  rw [heq] at h
  unfold f32mul
  exact h

/-- Pure rational-arithmetic core of the dimension-error analysis: chaining the
three binary32 roundings (`long as f32`, `f32` division, `f32` multiplication
by `side as f32`) keeps the product within half a pixel of `1536 * s / L`. -/
lemma f32chain (s L A Sf R P : ℚ)
    (hs : 0 < s) (hL : 1537 ≤ L) (hsL : s ≤ L)
    (hA1 : L * (16777215 / 16777216) ≤ A) (hA2 : A ≤ L * (16777217 / 16777216))
    (hS1 : s * (16777215 / 16777216) ≤ Sf) (hS2 : Sf ≤ s * (16777217 / 16777216))
    (hR1 : 1536 / A * (16777215 / 16777216) ≤ R)
    (hR2 : R ≤ 1536 / A * (16777217 / 16777216))
    (hP1 : Sf * R * (16777215 / 16777216) ≤ P)
    (hP2 : P ≤ Sf * R * (16777217 / 16777216)) :
    1536 * s - L / 2 ≤ P * L ∧ P * L ≤ 1536 * s + L / 2 := by
  have hApos : (0 : ℚ) < A := by nlinarith
  have hAne : A ≠ 0 := ne_of_gt hApos
  have hRpos : (0 : ℚ) ≤ R := by
    have : (0 : ℚ) ≤ 1536 / A * (16777215 / 16777216) := by positivity
    linarith
  have hSfpos : (0 : ℚ) ≤ Sf := by nlinarith
  have hPpos : (0 : ℚ) ≤ P := by nlinarith
  have hAR1 : 1536 * (16777215 / 16777216) ≤ A * R := by
    have h := mul_le_mul_of_nonneg_left hR1 hApos.le
    have heq : A * (1536 / A * (16777215 / 16777216)) = 1536 * (16777215 / 16777216) := by
      field_simp
      ring
    linarith
  have hAR2 : A * R ≤ 1536 * (16777217 / 16777216) := by
    have h := mul_le_mul_of_nonneg_left hR2 hApos.le
    have heq : A * (1536 / A * (16777217 / 16777216)) = 1536 * (16777217 / 16777216) := by
      field_simp
      ring
    linarith
  have hARpos : (0 : ℚ) ≤ A * R := by nlinarith
  constructor
  · -- lower bound
    have l1 : (s * (16777215 / 16777216)) * (1536 * (16777215 / 16777216)) ≤
        Sf * (A * R) :=
      mul_le_mul hS1 hAR1 (by norm_num) hSfpos
    have l2 : P * A ≥ Sf * R * (16777215 / 16777216) * A :=
      mul_le_mul_of_nonneg_right hP1 hApos.le
    have l3 : P * A ≤ P * (L * (16777217 / 16777216)) :=
      mul_le_mul_of_nonneg_left hA2 hPpos
    have l4 : 1536 * s * (16777215 / 16777216) ^ 3 ≤ P * L * (16777217 / 16777216) := by
      linarith [l1, l2, l3]
    linarith [l4, hsL, hL]
  · -- upper bound
    have u1 : Sf * (A * R) ≤ (s * (16777217 / 16777216)) * (1536 * (16777217 / 16777216)) :=
      mul_le_mul hS2 hAR2 hARpos (mul_nonneg hs.le (by norm_num))
    have u2 : P * A ≤ Sf * R * (16777217 / 16777216) * A :=
      mul_le_mul_of_nonneg_right hP2 hApos.le
    have u3 : P * (L * (16777215 / 16777216)) ≤ P * A :=
      mul_le_mul_of_nonneg_left hA1 hPpos
    have u4 : P * L * (16777215 / 16777216) ≤ 1536 * s * (16777217 / 16777216) ^ 3 := by
      linarith [u1, u2, u3]
    linarith [u4, hsL, hL]

lemma f32div_def (a b : ℕ × ℕ) : f32div a b = f32pair (a.1 * b.2) (a.2 * b.1) := rfl

lemma f32mul_def (a b : ℕ × ℕ) : f32mul a b = f32pair (a.1 * b.1) (a.2 * b.2) := rfl

/-- The computed short side never exceeds `MAX_SIZE` and lies within one pixel
of the exact `⌊s * 1536 / L⌋`. -/
lemma scaledShort_bounds (s L : ℕ) (hs : s ≠ 0) (hsL : s ≤ L) (hL : MAX_SIZE < L) :
    scaledShort s L ≤ 1536 ∧
      s * 1536 / L - 1 ≤ scaledShort s L ∧ scaledShort s L ≤ s * 1536 / L + 1 := by
  have hL0 : L ≠ 0 := by
    rw [MAX_SIZE] at hL; omega
  have hLQ : (0 : ℚ) < L := by exact_mod_cast Nat.pos_of_ne_zero hL0
  have hsQ : (0 : ℚ) < s := by exact_mod_cast Nat.pos_of_ne_zero hs
  have hL37 : (1537 : ℚ) ≤ L := by
    rw [MAX_SIZE] at hL
    exact_mod_cast (by omega : 1537 ≤ L)
  have hsLQ : (s : ℚ) ≤ L := by exact_mod_cast hsL
  have hMnum : (u32f MAX_SIZE).1 ≠ 0 := by decide
  have hMden : (u32f MAX_SIZE).2 ≠ 0 := by decide
  have hLnum : (u32f L).1 ≠ 0 := f32pair_num_ne L 1 hL0 one_ne_zero
  have hLden : (u32f L).2 ≠ 0 := f32pair_den_ne L 1
  have hsnum : (u32f s).1 ≠ 0 := f32pair_num_ne s 1 hs one_ne_zero
  have hsden : (u32f s).2 ≠ 0 := f32pair_den_ne s 1
  have hA := u32f_bounds L hL0
  have hS := u32f_bounds s hs
  have hRdiv := f32div_bounds (u32f MAX_SIZE) (u32f L) hMnum hMden hLnum hLden
  rw [qv_u32f_MAX] at hRdiv
  have hRnum : (f32div (u32f MAX_SIZE) (u32f L)).1 ≠ 0 := by
    rw [f32div_def]
    exact f32pair_num_ne _ _ (mul_ne_zero hMnum hLden) (mul_ne_zero hMden hLnum)
  have hRden : (f32div (u32f MAX_SIZE) (u32f L)).2 ≠ 0 := by
    rw [f32div_def]
    exact f32pair_den_ne _ _
  have hPmul := f32mul_bounds (u32f s) (f32div (u32f MAX_SIZE) (u32f L))
    hsnum hsden hRnum hRden
  obtain ⟨hlo, hhi⟩ := f32chain s L (qv (u32f L)) (qv (u32f s))
    (qv (f32div (u32f MAX_SIZE) (u32f L)))
    (qv (f32mul (u32f s) (f32div (u32f MAX_SIZE) (u32f L))))
    hsQ hL37 hsLQ hA.1 hA.2 hS.1 hS.2 hRdiv.1 hRdiv.2 hPmul.1 hPmul.2
  set P := qv (f32mul (u32f s) (f32div (u32f MAX_SIZE) (u32f L))) with hPdef
  have hPnn : 0 ≤ P := qv_nonneg _
  have hSS : scaledShort s L = ⌊P⌋₊ := by rw [scaledShort, castU32_eq_floor]
  have hF1 : ((s * 1536 / L : ℕ) : ℚ) ≤ (s : ℚ) * 1536 / L := by
    calc ((s * 1536 / L : ℕ) : ℚ) ≤ ((s * 1536 : ℕ) : ℚ) / L := Nat.cast_div_le
      _ = (s : ℚ) * 1536 / L := by push_cast; ring
  have hF2 : (s : ℚ) * 1536 / L < ((s * 1536 / L : ℕ) : ℚ) + 1 := by
    have h := Nat.lt_floor_add_one (((s * 1536 : ℕ) : ℚ) / L)
    rw [Nat.floor_div_nat, Nat.floor_natCast] at h
    calc (s : ℚ) * 1536 / L = ((s * 1536 : ℕ) : ℚ) / L := by push_cast; ring
      _ < _ := h
  have hPub : P ≤ (s : ℚ) * 1536 / L + 1 / 2 := by
    rw [show (s : ℚ) * 1536 / L + 1 / 2 = (1536 * s + L / 2) / L by
      field_simp; ring]
    rw [le_div_iff₀ hLQ]
    exact hhi
  have hPlb : (s : ℚ) * 1536 / L - 1 / 2 ≤ P := by
    rw [show (s : ℚ) * 1536 / L - 1 / 2 = (1536 * s - L / 2) / L by
      field_simp; ring]
    rw [div_le_iff₀ hLQ]
    exact hlo
  refine ⟨?_, ?_, ?_⟩
  · rw [hSS]
    have hT1536 : (s : ℚ) * 1536 / L ≤ 1536 := by
      rw [div_le_iff₀ hLQ]
      nlinarith [hsLQ]
    have h2 := (Nat.floor_lt hPnn).mpr (show P < ((1537 : ℕ) : ℚ) by push_cast; linarith)
    omega
  · rw [hSS]
    rcases Nat.eq_zero_or_pos (s * 1536 / L) with h0 | hFpos
    · simp [h0]
    · have hcast : ((s * 1536 / L - 1 : ℕ) : ℚ) = ((s * 1536 / L : ℕ) : ℚ) - 1 := by
        rw [Nat.cast_sub hFpos, Nat.cast_one]
      exact Nat.le_floor (by rw [hcast]; linarith)
  · rw [hSS]
    have h2 := (Nat.floor_lt hPnn).mpr
      (show P < ((s * 1536 / L + 2 : ℕ) : ℚ) by push_cast; linarith)
    omega

/-! ### MD5 (`md5::compute`) and lowercase hex formatting (`format!("{:x}", …)`)

The `md5` crate computes standard MD5; `{:x}` on the digest prints each of the
16 digest bytes as two lowercase hex digits.  We embed the full algorithm over
byte lists (bytes as naturals `< 256`, 32-bit words as naturals reduced
`mod 2³²`). -/

/-- Truncation to a 32-bit word. -/
def m32 (x : ℕ) : ℕ := x % 4294967296

/-- 32-bit left rotation of `x` (assumed `< 2³²`) by `c` (assumed `≤ 32`). -/
def rotl32 (x c : ℕ) : ℕ := x % 2 ^ (32 - c) * 2 ^ c + x / 2 ^ (32 - c)

/-- MD5 sine-derived constants `K[0..63]`. -/
def md5K : List ℕ :=
  [0xd76aa478, 0xe8c7b756, 0x242070db, 0xc1bdceee,
   0xf57c0faf, 0x4787c62a, 0xa8304613, 0xfd469501,
   0x698098d8, 0x8b44f7af, 0xffff5bb1, 0x895cd7be,
   0x6b901122, 0xfd987193, 0xa679438e, 0x49b40821,
   0xf61e2562, 0xc040b340, 0x265e5a51, 0xe9b6c7aa,
   0xd62f105d, 0x02441453, 0xd8a1e681, 0xe7d3fbc8,
   0x21e1cde6, 0xc33707d6, 0xf4d50d87, 0x455a14ed,
   0xa9e3e905, 0xfcefa3f8, 0x676f02d9, 0x8d2a4c8a,
   0xfffa3942, 0x8771f681, 0x6d9d6122, 0xfde5380c,
   0xa4beea44, 0x4bdecfa9, 0xf6bb4b60, 0xbebfbc70,
   0x289b7ec6, 0xeaa127fa, 0xd4ef3085, 0x04881d05,
   0xd9d4d039, 0xe6db99e5, 0x1fa27cf8, 0xc4ac5665,
   0xf4292244, 0x432aff97, 0xab9423a7, 0xfc93a039,
   0x655b59c3, 0x8f0ccc92, 0xffeff47d, 0x85845dd1,
   0x6fa87e4f, 0xfe2ce6e0, 0xa3014314, 0x4e0811a1,
   0xf7537e82, 0xbd3af235, 0x2ad7d2bb, 0xeb86d391]

/-- MD5 per-round left-rotation amounts `s[0..63]`. -/
def md5S : List ℕ :=
  [7, 12, 17, 22, 7, 12, 17, 22, 7, 12, 17, 22, 7, 12, 17, 22,
   5, 9, 14, 20, 5, 9, 14, 20, 5, 9, 14, 20, 5, 9, 14, 20,
   4, 11, 16, 23, 4, 11, 16, 23, 4, 11, 16, 23, 4, 11, 16, 23,
   6, 10, 15, 21, 6, 10, 15, 21, 6, 10, 15, 21, 6, 10, 15, 21]

/-- The round mixing function (F, G, H, I depending on the round index). -/
def md5F (i b c d : ℕ) : ℕ :=
  if i < 16 then b &&& c ||| (b ^^^ 4294967295) &&& d
  else if i < 32 then d &&& b ||| (d ^^^ 4294967295) &&& c
  else if i < 48 then b ^^^ c ^^^ d
  else c ^^^ (b ||| (d ^^^ 4294967295))

/-- The message-word index used in round `i`. -/
def md5G (i : ℕ) : ℕ :=
  if i < 16 then i
  else if i < 32 then (5 * i + 1) % 16
  else if i < 48 then (3 * i + 5) % 16
  else 7 * i % 16

/-- Little-endian 32-bit word `j` of a 64-byte chunk. -/
def chunkWord (chunk : List ℕ) (j : ℕ) : ℕ :=
  chunk.getD (4 * j) 0 + 256 * chunk.getD (4 * j + 1) 0 +
    65536 * chunk.getD (4 * j + 2) 0 + 16777216 * chunk.getD (4 * j + 3) 0

/-- One MD5 round on state `(a, b, c, d)`. -/
def md5Round (chunk : List ℕ) (st : ℕ × ℕ × ℕ × ℕ) (i : ℕ) : ℕ × ℕ × ℕ × ℕ :=
  let f := m32 (md5F i st.2.1 st.2.2.1 st.2.2.2 + st.1 + md5K.getD i 0 +
    chunkWord chunk (md5G i))
  (st.2.2.2, m32 (st.2.1 + rotl32 f (md5S.getD i 0)), st.2.1, st.2.2.1)

/-- Process one 64-byte chunk. -/
def md5Chunk (chunk : List ℕ) (st : ℕ × ℕ × ℕ × ℕ) : ℕ × ℕ × ℕ × ℕ :=
  let r := (List.range 64).foldl (md5Round chunk) st
  (m32 (st.1 + r.1), m32 (st.2.1 + r.2.1), m32 (st.2.2.1 + r.2.2.1),
    m32 (st.2.2.2 + r.2.2.2))

/-- Process `n` chunks of 64 bytes. -/
def md5Chunks : ℕ → List ℕ → ℕ × ℕ × ℕ × ℕ → ℕ × ℕ × ℕ × ℕ
  | 0, _, st => st
  | n + 1, bytes, st => md5Chunks n (bytes.drop 64) (md5Chunk (bytes.take 64) st)

/-- `k` little-endian bytes of `x`. -/
def leBytes : ℕ → ℕ → List ℕ
  | 0, _ => []
  | k + 1, x => x % 256 :: leBytes k (x / 256)

/-- MD5 padding for a message of `len` bytes: `0x80`, zeros to 56 mod 64,
then the bit length as a little-endian 64-bit integer. -/
def md5Pad (len : ℕ) : List ℕ :=
  128 :: (List.replicate ((120 - (len + 1) % 64) % 64) 0 ++
    leBytes 8 (len * 8 % 2 ^ 64))

/-- The 16-byte MD5 digest of a byte string (`md5::compute`). -/
def md5Bytes (msg : List ℕ) : List ℕ :=
  let padded := msg ++ md5Pad msg.length
  let st := md5Chunks (padded.length / 64) padded
    (0x67452301, 0xefcdab89, 0x98badcfe, 0x10325476)
  leBytes 4 st.1 ++ leBytes 4 st.2.1 ++ leBytes 4 st.2.2.1 ++ leBytes 4 st.2.2.2

/-- The sixteen lowercase hex digits `"0123456789abcdef"` (`Nat.digitChar`
maps `0..15` to exactly these). -/
def hexChars : List Char := (List.range 16).map Nat.digitChar

/-- Two lowercase hex digits of a byte (`{:02x}`). -/
def byteHex (b : ℕ) : List Char :=
  [hexChars.getD (b / 16 % 16) '0', hexChars.getD (b % 16) '0']

/-- `format!("{:x}", md5::compute(msg))`: the 32-character lowercase hex
rendering of the digest. -/
def md5Hex (msg : List ℕ) : List Char := ((md5Bytes msg).map byteHex).flatten

set_option maxRecDepth 8000 in
example : md5Hex [] = "d41d8cd98f00b204e9800998ecf8427e".toList := by decide

set_option maxRecDepth 8000 in
example : md5Hex [97, 98, 99] = "900150983cd24fb0d6963f7d28e17f72".toList := by decide

lemma leBytes_length (k : ℕ) : ∀ x, (leBytes k x).length = k := by
  induction k with
  | zero => intro x; rfl
  | succ n ih => intro x; rw [leBytes]; simp [ih]

lemma md5Bytes_length (msg : List ℕ) : (md5Bytes msg).length = 16 := by
  rw [md5Bytes]
  simp [leBytes_length]

lemma flatten_byteHex_length (l : List ℕ) :
    ((l.map byteHex).flatten).length = 2 * l.length := by
  induction l with
  | nil => rfl
  | cons b t ih =>
    simp only [List.map_cons, List.flatten_cons, List.length_append, ih,
      List.length_cons, byteHex, List.length_cons, List.length_nil]
    omega

/-- The rendered digest always has exactly 32 characters. -/
lemma md5Hex_length (msg : List ℕ) : (md5Hex msg).length = 32 := by
  rw [md5Hex, flatten_byteHex_length, md5Bytes_length]

lemma hexChars_getD_mem (i : ℕ) (h : i < 16) : hexChars.getD i '0' ∈ hexChars := by
  interval_cases i <;> decide

lemma byteHex_mem (b : ℕ) : ∀ c ∈ byteHex b, c ∈ hexChars := by
  intro c hc
  rw [byteHex] at hc
  simp only [List.mem_cons, List.mem_singleton, List.not_mem_nil, or_false] at hc
  rcases hc with h | h <;> rw [h]
  · exact hexChars_getD_mem _ (Nat.mod_lt _ (by norm_num))
  · exact hexChars_getD_mem _ (Nat.mod_lt _ (by norm_num))

/-- Every character of the rendered digest is a lowercase hex digit. -/
lemma md5Hex_mem (msg : List ℕ) : ∀ c ∈ md5Hex msg, c ∈ hexChars := by
  intro c hc
  rw [md5Hex, List.mem_flatten] at hc
  obtain ⟨l, hl, hcl⟩ := hc
  rw [List.mem_map] at hl
  obtain ⟨b, _, rfl⟩ := hl
  exact byteHex_mem b c hcl

/-! ### Filesystem and pipeline model

The filesystem is a partial map from paths to nodes (`Path::exists` is
`(fs p).isSome`, which is also true for directories).  The model is
sequential and single-process: reads after a write observe the written bytes,
and no operation fails spuriously except where the embedding takes the
outcome as a parameter (`remOk` for `fs::remove_file`, `EncodeOutcome` for
the JPEG encoder). -/

/-- A filesystem node: a regular file with its bytes, or a directory. -/
inductive FsNode where
  | file (bytes : List ℕ)
  | dir
deriving DecidableEq

/-- A filesystem: partial map from paths to nodes. -/
def FS : Type := String → Option FsNode

/-- An in-memory pixel buffer with its dimensions (the `image` crate's
`DynamicImage`, kept abstract apart from dimensions). -/
structure Image where
  width : ℕ
  height : ℕ
  pix : List ℕ
deriving DecidableEq

/-- The distinct error sites of `compress_image` / `get_image_hash` /
`delete_file` (each `map_err` produces a distinct message prefix):
`notFound` = "File not found" (line 42), `decodeFailed` = "Failed to open
image" (line 52), `encodeFailed` = "Failed to encode JPEG" (line 96),
`readFailed` = "Failed to read file" (line 126), `removeFailed` = "Failed to
delete file" (line 138). -/
inductive CompressError where
  | notFound
  | decodeFailed
  | encodeFailed
  | readFailed
  | removeFailed
deriving DecidableEq

/-- `CompressResult` (lib.rs lines 24–34); the digest is kept as the hex
character string produced by `format!("{:x}", …)`. -/
structure CompressResult where
  success : Bool
  id : String
  original_path : String
  output_path : String
  original_size : ℕ
  compressed_size : ℕ
  width : ℕ
  height : ℕ
  md5 : List Char
deriving DecidableEq

/-- Outcome of `JpegEncoder::encode` into an already-created file: on success
the full artifact bytes are in the file; on failure the bytes the encoder
wrote before failing (possibly none) are. -/
inductive EncodeOutcome where
  | ok (bytes : List ℕ)
  | fail (written : List ℕ)

/-- `get_data_dir().join(format!("{}.jpg", image_id))` (lib.rs line 80). -/
def outputPath (dataDir image_id : String) : String :=
  dataDir ++ "/" ++ image_id ++ ".jpg"

/-- Overwrite/create the file at `p`. -/
def fsWrite (fs : FS) (p : String) (bytes : List ℕ) : FS :=
  fun q => if q = p then some (.file bytes) else fs q

/-- Shallow embedding of `compress_image` (lib.rs lines 39–120).  The
external `image`-crate operations and the storage root are parameters:
`decodeFn` models `image::open` applied to a regular file's bytes (`none` =
undecodable; on a directory `image::open` always fails with an I/O error,
modelled directly), `resizeFn` models `resize_exact(…, Lanczos3)`,
`grayRgbFn` models `grayscale()` followed by `to_rgb8()`, and `encodeFn`
models `JpegEncoder::new_with_quality(file, 75).encode(…)` writing into the
file created at `output_path` (lib.rs line 92 creates/truncates the file
before encoding).  The hash (line 99–101) re-reads the bytes at
`output_path`, which in this sequential model are exactly the bytes just
written, and `compressed_size` (line 104) is that file's length. -/
def compress_image (decodeFn : List ℕ → Option Image)
    (resizeFn : Image → ℕ → ℕ → Image) (grayRgbFn : Image → Image)
    (encodeFn : Image → EncodeOutcome) (dataDir : String)
    (fs : FS) (input_path image_id : String) :
    Except CompressError CompressResult × FS :=
  match fs input_path with
  | none => (.error .notFound, fs)
  | some node =>
    let original_size := match node with
      | .file bs => bs.length
      | .dir => 0
    match (match node with | .dir => none | .file bs => decodeFn bs) with
    | none => (.error .decodeFailed, fs)
    | some img =>
      let nd := newDims img.width img.height
      let resized := if nd.1 ≠ img.width ∨ nd.2 ≠ img.height then
          resizeFn img nd.1 nd.2
        else img
      let out := outputPath dataDir image_id
      let rgb := grayRgbFn resized
      match encodeFn rgb with
      | .fail written => (.error .encodeFailed, fsWrite fs out written)
      | .ok bytes =>
        (.ok { success := true, id := image_id, original_path := input_path,
               output_path := out, original_size := original_size,
               compressed_size := bytes.length,
               width := rgb.width, height := rgb.height,
               md5 := md5Hex bytes }, fsWrite fs out bytes)

/-- Shallow embedding of `get_image_hash` (lib.rs lines 124–128): `fs::read`
the path (fails on a missing path or a directory), then
`format!("{:x}", md5::compute(&data))`. -/
def get_image_hash (fs : FS) (path : String) : Except CompressError (List Char) :=
  match fs path with
  | some (.file bs) => .ok (md5Hex bs)
  | _ => .error .readFailed

/-- Shallow embedding of `delete_file` (lib.rs lines 132–139).  `remOk p`
models whether `fs::remove_file p` succeeds (false on, e.g., permission
errors). -/
def delete_file (remOk : String → Bool) (fs : FS) (path : String) :
    Except CompressError Unit × FS :=
  match fs path with
  | none => (.ok (), fs)
  | some _ =>
    if remOk path then (.ok (), fun q => if q = path then none else fs q)
    else (.error .removeFailed, fs)

/-- UTF-8 bytes of `".jsonl"`. -/
def jsonlSuffix : List ℕ := [46, 106, 115, 111, 110, 108]

/-- Byte-wise lexicographic strict order on byte strings — the order used by
Rust's `&str` comparison (`date_part < cutoff_str.as_str()`, lib.rs 229). -/
def bytesLt : List ℕ → List ℕ → Bool
  | [], [] => false
  | [], _ :: _ => true
  | _ :: _, [] => false
  | a :: xs, b :: ys => if a < b then true else if b < a then false else bytesLt xs ys

/-- The per-file deletion test of `log_cleanup` (lib.rs lines 227–229):
`filename.ends_with(".jsonl") && filename.len() == 15`, then
`&filename[..10] < cutoff_str`.  `str::len` and the `[..10]` slice count
BYTES, so filenames are modelled as UTF-8 byte strings.  (When the length is
15 and the suffix matches, byte 9 is `'.'`, so the `[..10]` slice can never
panic on a character boundary.) -/
def cleanupMatch (cutoff name : List ℕ) : Bool :=
  jsonlSuffix.isSuffixOf name && name.length == 15 && bytesLt (name.take 10) cutoff

/-- Shallow embedding of the `log_cleanup` scan (lib.rs lines 212–238) over
the directory listing: every entry passing `cleanupMatch` is handed to
`fs::remove_file` (success modelled by `remOk`); successful removals are
counted, everything else stays.  Returns `(deleted_count, remaining files)`. -/
def log_cleanup (cutoff : List ℕ) (remOk : List ℕ → Bool) :
    List (List ℕ) → ℕ × List (List ℕ)
  | [] => (0, [])
  | name :: rest =>
    let r := log_cleanup cutoff remOk rest
    if cleanupMatch cutoff name then
      if remOk name then (r.1 + 1, r.2) else (r.1, name :: r.2)
    else (r.1, name :: r.2)

/-- Number of characters (Unicode scalar values) in a UTF-8 byte string:
every byte that is not a continuation byte (`0x80`–`0xBF`) starts one
character. -/
def utf8Len (bs : List ℕ) : ℕ :=
  (bs.filter (fun b => decide (b < 128 ∨ 192 ≤ b))).length

/-! ### Claim theorems: geometry -/

lemma newDims_id (w h : ℕ) (hmax : max w h ≤ MAX_SIZE) : newDims w h = (w, h) := by
  obtain ⟨hw, hh⟩ := Nat.max_le.mp hmax
  rw [newDims]
  split_ifs with h1 h2 h3
  · omega
  · rfl
  · omega
  · rfl

/-- C1 (amended): whenever the longer original side exceeds `M = 1536`, the
longer output side equals 1536 exactly, and the shorter output side never
exceeds 1536 and differs from `⌊min(W,H) * 1536 / max(W,H)⌋` by at most one
pixel (the `f32` arithmetic of lib.rs lines 60–67 can land one pixel off the
exact integer formula); the concrete 3000×2000 scenario does yield exactly
1536×1024. -/
theorem newDims_long_exact_short_within_one :
    (∀ w h : ℕ, w ≠ 0 → h ≠ 0 → MAX_SIZE < max w h →
      max (newDims w h).1 (newDims w h).2 = 1536 ∧
      min w h * 1536 / max w h - 1 ≤ min (newDims w h).1 (newDims w h).2 ∧
      min (newDims w h).1 (newDims w h).2 ≤ min w h * 1536 / max w h + 1) ∧
    newDims 3000 2000 = (1536, 1024) := by
  refine ⟨?_, by decide⟩
  intro w h hw hh hmax
  rw [newDims]
  split_ifs with h1 h2 h3
  · obtain ⟨hb1, hb2, hb3⟩ := scaledShort_bounds h w hh h1.le h2
    rw [min_eq_right h1.le, max_eq_left h1.le]
    have hmx : max (MAX_SIZE, scaledShort h w).1 (MAX_SIZE, scaledShort h w).2 =
        1536 := max_eq_left hb1
    have hmn : min (MAX_SIZE, scaledShort h w).1 (MAX_SIZE, scaledShort h w).2 =
        scaledShort h w := min_eq_right hb1
    rw [hmx, hmn]
    exact ⟨rfl, hb2, hb3⟩
  · rw [max_eq_left h1.le] at hmax
    omega
  · have hwh : w ≤ h := not_lt.mp h1
    obtain ⟨hb1, hb2, hb3⟩ := scaledShort_bounds w h hw hwh h3
    rw [min_eq_left hwh, max_eq_right hwh]
    have hmx : max (scaledShort w h, MAX_SIZE).1 (scaledShort w h, MAX_SIZE).2 =
        1536 := max_eq_right hb1
    have hmn : min (scaledShort w h, MAX_SIZE).1 (scaledShort w h, MAX_SIZE).2 =
        scaledShort w h := min_eq_left hb1
    rw [hmx, hmn]
    exact ⟨rfl, hb2, hb3⟩
  · rw [max_eq_right (not_lt.mp h1)] at hmax
    omega

theorem newDims_long_exact_short_within_one_witness :
    MAX_SIZE < max 3000 2000 ∧
      (max (newDims 3000 2000).1 (newDims 3000 2000).2 = 1536 ∧
        min 3000 2000 * 1536 / max 3000 2000 - 1 ≤
          min (newDims 3000 2000).1 (newDims 3000 2000).2 ∧
        min (newDims 3000 2000).1 (newDims 3000 2000).2 ≤
          min 3000 2000 * 1536 / max 3000 2000 + 1) :=
  ⟨by decide, newDims_long_exact_short_within_one.1 3000 2000 (by decide)
    (by decide) (by decide)⟩

/-- C1 counterexample: for a 1692×141 input the exact formula gives
`⌊141 * 1536 / 1692⌋ = 128`, but the code computes 127. -/
theorem newDims_exact_formula_cex :
    newDims 1692 141 = (1536, 127) ∧ min 1692 141 * 1536 / max 1692 141 = 128 := by
  decide

/-- C5 (amended): a square input is handled by the `else`/height branch (the
strict `orig_width > orig_height` test fails on ties), producing
`(s, MAX_SIZE)`; the computed component `s` is 1535 or 1536, not always
exactly 1536.  When `W ≤ MAX_SIZE` the square is unchanged. -/
theorem newDims_square_tiebreak :
    ∀ w : ℕ, w ≠ 0 →
      (MAX_SIZE < w →
        newDims w w = (scaledShort w w, MAX_SIZE) ∧
          (scaledShort w w = 1535 ∨ scaledShort w w = 1536)) ∧
      (w ≤ MAX_SIZE → newDims w w = (w, w)) := by
  intro w hw
  constructor
  · intro hlt
    constructor
    · rw [newDims, if_neg (lt_irrefl w), if_pos hlt]
    · obtain ⟨hb1, hb2, hb3⟩ := scaledShort_bounds w w hw le_rfl hlt
      have hF : w * 1536 / w = 1536 :=
        Nat.mul_div_cancel_left 1536 (Nat.pos_of_ne_zero hw)
      omega
  · intro hle
    exact newDims_id w w (by simp [hle])

theorem newDims_square_tiebreak_witness :
    MAX_SIZE < 2055 ∧
      (newDims 2055 2055 = (scaledShort 2055 2055, MAX_SIZE) ∧
        (scaledShort 2055 2055 = 1535 ∨ scaledShort 2055 2055 = 1536)) :=
  ⟨by decide, (newDims_square_tiebreak 2055 (by decide)).1 (by decide)⟩

/-- C5 counterexample: the 2055×2055 square yields (1535, 1536) — not a
square of side `M`. -/
theorem newDims_square_cex :
    newDims 2055 2055 = (1535, 1536) ∧
      (newDims 2055 2055).1 ≠ (newDims 2055 2055).2 := by
  decide

/-- C4: when the longer side is already within `MAX_SIZE`, the dimensions are
unchanged and the resampler is never consulted: the result of
`compress_image` is identical for any two resize functions, and on success
the reported dimensions equal the decoded input dimensions (given that
grayscale conversion and RGB re-expansion preserve dimensions, as the
`image` crate guarantees). -/
theorem compress_no_upscale (decodeFn : List ℕ → Option Image)
    (resize1 resize2 : Image → ℕ → ℕ → Image) (grayRgbFn : Image → Image)
    (encodeFn : Image → EncodeOutcome) (dataDir : String) (fs : FS)
    (input_path image_id : String) (bs : List ℕ) (img : Image)
    (hfs : fs input_path = some (.file bs)) (hdec : decodeFn bs = some img)
    (hmax : max img.width img.height ≤ MAX_SIZE)
    (hgray : ∀ i, (grayRgbFn i).width = i.width ∧ (grayRgbFn i).height = i.height) :
    compress_image decodeFn resize1 grayRgbFn encodeFn dataDir fs input_path image_id =
      compress_image decodeFn resize2 grayRgbFn encodeFn dataDir fs input_path image_id ∧
    ∀ res fs2, compress_image decodeFn resize1 grayRgbFn encodeFn dataDir fs
        input_path image_id = (.ok res, fs2) →
      res.width = img.width ∧ res.height = img.height := by
  have hnd : newDims img.width img.height = (img.width, img.height) :=
    newDims_id _ _ hmax
  constructor
  · simp only [compress_image, hfs, hdec, hnd, ne_eq, not_true_eq_false,
      false_or, or_self, if_false, ite_false]
  · intro res fs2 hres
    simp only [compress_image, hfs, hdec, hnd, ne_eq, not_true_eq_false,
      false_or, or_self, if_false, ite_false] at hres
    cases henc : encodeFn (grayRgbFn img) with
    | fail written => rw [henc] at hres; simp at hres
    | ok bytes =>
      rw [henc] at hres
      rw [Prod.mk.injEq] at hres
      obtain ⟨hres1, _⟩ := hres
      rw [Except.ok.injEq] at hres1
      subst hres1
      exact ⟨(hgray img).1, (hgray img).2⟩

/-! ### Concrete fixtures used by witnesses and counterexamples -/

/-- A decoder returning a small already-compliant image. -/
def wDecode : List ℕ → Option Image := fun _ => some ⟨800, 600, []⟩

def wResizeA : Image → ℕ → ℕ → Image := fun _ w h => ⟨w, h, []⟩

def wResizeB : Image → ℕ → ℕ → Image := fun _ _ _ => ⟨0, 0, []⟩

/-- Dimension-preserving grayscale+RGB stage. -/
def wGray : Image → Image := fun i => ⟨i.width, i.height, i.pix⟩

def wEncodeOk : Image → EncodeOutcome := fun _ => .ok [1, 2]

/-- A filesystem holding one source image. -/
def wFs : FS := fun p => if p = "/pic.png" then some (.file [9]) else none

theorem compress_no_upscale_witness :
    (compress_image wDecode wResizeA wGray wEncodeOk "/data" wFs "/pic.png" "id1" =
      compress_image wDecode wResizeB wGray wEncodeOk "/data" wFs "/pic.png" "id1") ∧
    ∀ res fs2, compress_image wDecode wResizeA wGray wEncodeOk "/data" wFs
        "/pic.png" "id1" = (.ok res, fs2) →
      res.width = (Image.mk 800 600 []).width ∧
        res.height = (Image.mk 800 600 []).height :=
  compress_no_upscale wDecode wResizeA wResizeB wGray wEncodeOk "/data" wFs
    "/pic.png" "id1" [9] ⟨800, 600, []⟩ rfl rfl (by decide) (fun i => ⟨rfl, rfl⟩)

/-! ### Claim theorems: pipeline error handling and hashing -/

/-- A decoder returning a 3000×2000 image (the spec's concrete scenario). -/
def cDecode : List ℕ → Option Image := fun _ => some ⟨3000, 2000, [1]⟩

def cResize : Image → ℕ → ℕ → Image := fun _ w h => ⟨w, h, []⟩

/-- An encoder that fails after writing a single byte. -/
def cEncodeFail : Image → EncodeOutcome := fun _ => .fail [255]

def cEncodeOk : Image → EncodeOutcome := fun _ => .ok [1, 2, 3]

/-- A filesystem holding one source image at `/cap.png`. -/
def cFs : FS := fun p => if p = "/cap.png" then some (.file [5]) else none

/-- C2 (code bug): when the JPEG encoder fails after `File::create` (lib.rs
line 92) has already created/truncated the output file and partial bytes were
written, `compress_image` returns an error yet a partial artifact produced by
this call remains at `output_path` — the code writes directly instead of
writing to a temporary file and renaming. -/
theorem compress_partial_file_left :
    (compress_image cDecode cResize wGray cEncodeFail "/data" cFs "/cap.png"
        "id9").1 = .error .encodeFailed ∧
    cFs (outputPath "/data" "id9") = none ∧
    (compress_image cDecode cResize wGray cEncodeFail "/data" cFs "/cap.png"
        "id9").2 (outputPath "/data" "id9") = some (.file [255]) :=
  ⟨rfl, rfl, rfl⟩

/-- C3 (amended, first half): a path that does not exist at all fails with
the distinct `NotFound` error before any decode attempt. -/
theorem missing_file_not_found (decodeFn : List ℕ → Option Image)
    (resizeFn : Image → ℕ → ℕ → Image) (grayRgbFn : Image → Image)
    (encodeFn : Image → EncodeOutcome) (dataDir : String) (fs : FS)
    (input_path image_id : String) (hfs : fs input_path = none) :
    compress_image decodeFn resizeFn grayRgbFn encodeFn dataDir fs input_path
      image_id = (.error .notFound, fs) := by
  rw [compress_image, hfs]

/-- An empty filesystem. -/
def emptyFs : FS := fun _ => none

theorem missing_file_not_found_witness :
    emptyFs "/nonexistent/path" = none ∧
      compress_image cDecode cResize wGray cEncodeOk "/data" emptyFs
        "/nonexistent/path" "id1" = (.error .notFound, emptyFs) :=
  ⟨rfl, missing_file_not_found cDecode cResize wGray cEncodeOk "/data" emptyFs
    "/nonexistent/path" "id1" rfl⟩

/-- A filesystem with a directory at `/somedir`. -/
def dirFs : FS := fun p => if p = "/somedir" then some .dir else none

/-- C3 counterexample: a directory path does not reference a regular file,
yet `Path::exists()` returns true for it, so `compress_image` reaches
`image::open` and fails with the decode-stage error ("Failed to open image"),
not with `NotFound`. -/
theorem dir_path_gives_decode_error :
    (compress_image cDecode cResize wGray cEncodeOk "/data" dirFs "/somedir"
        "id1").1 = .error .decodeFailed ∧
    CompressError.decodeFailed ≠ CompressError.notFound :=
  ⟨rfl, by decide⟩

/-- Inversion of a successful `compress_image` run: the final filesystem holds
the encoded bytes at the reported `output_path`, and the reported digest and
size are computed from exactly those bytes (lib.rs lines 98–106 re-read the
file just written). -/
lemma compress_image_ok_inv {decodeFn : List ℕ → Option Image}
    {resizeFn : Image → ℕ → ℕ → Image} {grayRgbFn : Image → Image}
    {encodeFn : Image → EncodeOutcome} {dataDir : String} {fs : FS}
    {input_path image_id : String} {res : CompressResult} {fs' : FS}
    (h : compress_image decodeFn resizeFn grayRgbFn encodeFn dataDir fs
      input_path image_id = (.ok res, fs')) :
    ∃ bytes, fs' res.output_path = some (.file bytes) ∧
      res.md5 = md5Hex bytes ∧ res.compressed_size = bytes.length ∧
      res.output_path = outputPath dataDir image_id := by
  simp only [compress_image] at h
  split at h
  · simp at h
  · split at h
    · simp at h
    · split at h
      · simp at h
      · rename_i img hdec bytes henc
        rw [Prod.mk.injEq] at h
        obtain ⟨h1, h2⟩ := h
        rw [Except.ok.injEq] at h1
        subst h1
        subst h2
        refine ⟨bytes, ?_, rfl, rfl, rfl⟩
        simp [fsWrite]

/-- C6: the reported `content_hash` is a pure function of the encoded byte
buffer: any two successful runs whose written artifacts hold identical bytes
report identical digests — in particular, normalizing the same source twice
with the same configuration reproduces the hash. -/
theorem md5_pure_function_of_bytes {d1 : List ℕ → Option Image}
    {r1 : Image → ℕ → ℕ → Image} {g1 : Image → Image}
    {e1 : Image → EncodeOutcome} {dd1 : String} {fsIn1 : FS} {in1 id1 : String}
    {d2 : List ℕ → Option Image} {r2 : Image → ℕ → ℕ → Image} {g2 : Image → Image}
    {e2 : Image → EncodeOutcome} {dd2 : String} {fsIn2 : FS} {in2 id2 : String}
    {res1 res2 : CompressResult} {fsA fsB : FS}
    (h1 : compress_image d1 r1 g1 e1 dd1 fsIn1 in1 id1 = (.ok res1, fsA))
    (h2 : compress_image d2 r2 g2 e2 dd2 fsIn2 in2 id2 = (.ok res2, fsB))
    (hb : fsA res1.output_path = fsB res2.output_path) :
    res1.md5 = res2.md5 := by
  obtain ⟨b1, hf1, hm1, _, _⟩ := compress_image_ok_inv h1
  obtain ⟨b2, hf2, hm2, _, _⟩ := compress_image_ok_inv h2
  rw [hf1, hf2] at hb
  simp only [Option.some.injEq, FsNode.file.injEq] at hb
  rw [hm1, hm2, hb]

/-- C7: `get_image_hash` applied to the freshly written artifact reproduces
exactly the `md5` reported by that `compress_image` call (same digest
algorithm over the file's existing bytes, no normalization). -/
theorem get_image_hash_matches {decodeFn : List ℕ → Option Image}
    {resizeFn : Image → ℕ → ℕ → Image} {grayRgbFn : Image → Image}
    {encodeFn : Image → EncodeOutcome} {dataDir : String} {fs : FS}
    {input_path image_id : String} {res : CompressResult} {fs' : FS}
    (h : compress_image decodeFn resizeFn grayRgbFn encodeFn dataDir fs
      input_path image_id = (.ok res, fs')) :
    get_image_hash fs' res.output_path = .ok res.md5 := by
  obtain ⟨b, hf, hm, _, _⟩ := compress_image_ok_inv h
  rw [get_image_hash, hf, hm]

/-- C8: on success the reported `content_hash` is the lowercase hexadecimal
digest of the artifact bytes present at `output_path` — the encoded bytes
written to disk — not of the source bytes or a pre-encode buffer; it is 32
characters long, all from `0-9a-f`. -/
theorem content_hash_lowercase_hex_of_artifact {decodeFn : List ℕ → Option Image}
    {resizeFn : Image → ℕ → ℕ → Image} {grayRgbFn : Image → Image}
    {encodeFn : Image → EncodeOutcome} {dataDir : String} {fs : FS}
    {input_path image_id : String} {res : CompressResult} {fs' : FS}
    (h : compress_image decodeFn resizeFn grayRgbFn encodeFn dataDir fs
      input_path image_id = (.ok res, fs')) :
    ∃ bytes, fs' res.output_path = some (.file bytes) ∧
      res.md5 = md5Hex bytes ∧ res.compressed_size = bytes.length ∧
      res.md5.length = 32 ∧ ∀ c ∈ res.md5, c ∈ hexChars := by
  obtain ⟨b, hf, hm, hsz, _⟩ := compress_image_ok_inv h
  exact ⟨b, hf, hm, hsz, by rw [hm]; exact md5Hex_length b,
    by rw [hm]; exact md5Hex_mem b⟩

/-- The expected result of the first fixture run. -/
def cRes1 : CompressResult :=
  ⟨true, "id1", "/cap.png", outputPath "/data" "id1", 1, 3, 1536, 1024,
    md5Hex [1, 2, 3]⟩

def cFsA : FS := fsWrite cFs (outputPath "/data" "id1") [1, 2, 3]

/-- A second filesystem with a different source producing identical encoded
bytes. -/
def cFs2 : FS := fun p => if p = "/cap2.png" then some (.file [6, 6]) else none

def cRes2 : CompressResult :=
  ⟨true, "id2", "/cap2.png", outputPath "/data" "id2", 2, 3, 1536, 1024,
    md5Hex [1, 2, 3]⟩

def cFsB : FS := fsWrite cFs2 (outputPath "/data" "id2") [1, 2, 3]

theorem md5_pure_function_of_bytes_witness :
    compress_image cDecode cResize wGray cEncodeOk "/data" cFs "/cap.png"
        "id1" = (.ok cRes1, cFsA) ∧
    compress_image cDecode cResize wGray cEncodeOk "/data" cFs2 "/cap2.png"
        "id2" = (.ok cRes2, cFsB) ∧
    cFsA cRes1.output_path = cFsB cRes2.output_path ∧
    cRes1.md5 = cRes2.md5 :=
  by
  have h1 : compress_image cDecode cResize wGray cEncodeOk "/data" cFs
      "/cap.png" "id1" = (.ok cRes1, cFsA) := rfl
  have h2 : compress_image cDecode cResize wGray cEncodeOk "/data" cFs2
      "/cap2.png" "id2" = (.ok cRes2, cFsB) := rfl
  exact ⟨h1, h2, rfl, md5_pure_function_of_bytes h1 h2 rfl⟩

theorem get_image_hash_matches_witness :
    compress_image cDecode cResize wGray cEncodeOk "/data" cFs "/cap.png"
        "id1" = (.ok cRes1, cFsA) ∧
    get_image_hash cFsA cRes1.output_path = .ok cRes1.md5 :=
  by
  have h1 : compress_image cDecode cResize wGray cEncodeOk "/data" cFs
      "/cap.png" "id1" = (.ok cRes1, cFsA) := rfl
  exact ⟨h1, get_image_hash_matches h1⟩

theorem content_hash_lowercase_hex_witness :
    compress_image cDecode cResize wGray cEncodeOk "/data" cFs "/cap.png"
        "id1" = (.ok cRes1, cFsA) ∧
    ∃ bytes, cFsA cRes1.output_path = some (.file bytes) ∧
      cRes1.md5 = md5Hex bytes ∧ cRes1.compressed_size = bytes.length ∧
      cRes1.md5.length = 32 ∧ ∀ c ∈ cRes1.md5, c ∈ hexChars :=
  by
  have h1 : compress_image cDecode cResize wGray cEncodeOk "/data" cFs
      "/cap.png" "id1" = (.ok cRes1, cFsA) := rfl
  exact ⟨h1, content_hash_lowercase_hex_of_artifact h1⟩

/-- C9: `delete_file` succeeds when the target does not exist (lib.rs line
135), and reports an error exactly when the path exists and removal fails. -/
theorem delete_file_missing_ok (remOk : String → Bool) (fs : FS) (path : String) :
    (fs path = none → delete_file remOk fs path = (.ok (), fs)) ∧
    ((delete_file remOk fs path).1 = .error .removeFailed ↔
      fs path ≠ none ∧ remOk path = false) := by
  constructor
  · intro h; rw [delete_file, h]
  · rw [delete_file]
    cases hfs : fs path with
    | none => simp
    | some node =>
      by_cases hr : remOk path
      · simp [hr]
      · simp [hr]

theorem delete_file_missing_ok_witness :
    emptyFs "/gone.jpg" = none ∧
      delete_file (fun _ => true) emptyFs "/gone.jpg" = (.ok (), emptyFs) :=
  ⟨rfl, (delete_file_missing_ok (fun _ => true) emptyFs "/gone.jpg").1 rfl⟩

/-- C10 (amended, byte-level): `log_cleanup` deletes exactly the files whose
name is 15 BYTES long (UTF-8), ends with `".jsonl"`, has its first 10 bytes
byte-lexicographically below the cutoff string, and whose removal succeeds;
every other file is kept in order, and the returned count is the number of
files actually deleted. -/
theorem log_cleanup_frame (cutoff : List ℕ) (remOk : List ℕ → Bool)
    (files : List (List ℕ)) :
    log_cleanup cutoff remOk files =
      ((files.filter (fun n => cleanupMatch cutoff n && remOk n)).length,
        files.filter (fun n => !(cleanupMatch cutoff n && remOk n))) := by
  induction files with
  | nil => rfl
  | cons name rest ih =>
    rw [log_cleanup, ih]
    by_cases h1 : cleanupMatch cutoff name
    · by_cases h2 : remOk name
      · simp [List.filter_cons, h1, h2]
      · simp [List.filter_cons, h1, h2]
    · simp [List.filter_cons, h1]

/-- UTF-8 bytes of `"2026-10-05"`, a cutoff date string. -/
def cutoffBytes : List ℕ := [50, 48, 50, 54, 45, 49, 48, 45, 48, 53]

/-- UTF-8 bytes of `"0000000é.jsonl"`: 15 bytes but only 14 characters. -/
def accentName : List ℕ :=
  [48, 48, 48, 48, 48, 48, 48, 195, 169, 46, 106, 115, 111, 110, 108]

/-- C10 counterexample: `str::len()` counts bytes, not characters, so
`log_cleanup` deletes `"0000000é.jsonl"` — a filename of 14 characters (15
bytes) — contradicting the claim that only filenames of exactly 15
characters are deleted. -/
theorem log_cleanup_byte_length_cex :
    log_cleanup cutoffBytes (fun _ => true) [accentName] = (1, []) ∧
      accentName.length = 15 ∧ utf8Len accentName = 14 := by
  decide
